import Mathlib

/-!
# Chouf: a shallow embedding of the polling and notification core

Source files: `src/go/chouf.go` and `src/go/utils.go`.

Modelling conventions.

* Go `int` and `time.Duration` values are only compared and copied by the code
  embedded here, never added or multiplied, so they are `Int`.
* `sync.Map` is an association list with at most one entry per key; `Load` and
  `Store` are the two operations the program uses.
* A pointer that may be `nil` is an `Option`; dereferencing `nil` is the Go
  run-time panic, modelled as `Except.error Panic.nilDereference`.
* Everything the outside world decides (the answer of the HTTP client, whether a
  websocket write succeeds, what `readConfigFile` returns, the clock, the process
  environment, `time.ParseDuration`) is an explicit argument.
* The event loop of `main` is a step function on `MainState`: one call of
  `step` is one iteration of the `select`, and it returns the list of externally
  visible effects of that iteration. Log lines are not effects.
-/

namespace Chouf

/-! ## Data model (chouf.go, lines 35-85) -/

/-- Nanoseconds, as in Go's `time.Duration`. -/
abbrev Duration := Int

/-- Go's `time.Minute`. -/
def Minute : Duration := 60 * 1000000000

structure Result where
  Domain : String
  Ok : Bool
  LastCheck : String
  deriving DecidableEq, Repr

structure Website where
  Domain : String
  Name : String
  CertExpiration : Bool
  Endpoint : String
  Status : Int
  deriving DecidableEq, Repr

structure Defaults where
  Endpoint : String
  Status : Int
  deriving DecidableEq, Repr

structure GeneralConfig where
  Port : Int
  Tick : Duration
  Workers : Int
  deriving DecidableEq, Repr

structure Yaml where
  GeneralConfig : GeneralConfig
  Defaults : Defaults
  Inventory : List Website
  deriving DecidableEq, Repr

/-- The program's `sync.Map`, used with `string` keys and `Result` values. -/
abbrev SyncMap := List (String × Result)

/-- Go `(*sync.Map).Load`: the value stored under the key, `none` for Go's `nil, false`. -/
def SyncMap.Load (m : SyncMap) (key : String) : Option Result :=
  match m with
  | [] => none
  | (k, v) :: rest => if k = key then some v else SyncMap.Load rest key

/-- Go `(*sync.Map).Store`: sets the value for the key, replacing any earlier one. -/
def SyncMap.Store (m : SyncMap) (key : String) (value : Result) : SyncMap :=
  (key, value) :: m.filter (fun e => decide (e.1 ≠ key))

/-- An open websocket connection (`*websocket.Conn` that is not `nil`), by identity. -/
abbrev Conn := Nat

/-- The global `app` object. The `template` field plays no part in the core and is left out. -/
structure App where
  configPath : String
  debug : Bool
  endpoint : String
  inventory : List Website
  port : Int
  results : SyncMap
  smtp_from : String
  smtp_hostname : String
  smtp_login : String
  smtp_password : String
  smtp_port : Int
  smtp_to : String
  status : Int
  tick : Duration
  workers : Int
  ws : Option Conn
  deriving DecidableEq, Repr

/-- The flags given on the command line, `none` for a flag that is not given. `flag.Parse`
assigns exactly the variables of the flags that are given. -/
structure CmdLine where
  c : Option String
  d : Option Bool
  e : Option String
  p : Option Int
  s : Option Int
  T : Option Duration
  w : Option Int
  deriving DecidableEq, Repr

/-- The effect of `flag.Parse()` on the variables of `app` bound in `main` (lines 144-152). -/
def flagParse (cl : CmdLine) (app : App) : App :=
  { app with
    configPath := cl.c.getD app.configPath
    debug := cl.d.getD app.debug
    endpoint := cl.e.getD app.endpoint
    port := cl.p.getD app.port
    status := cl.s.getD app.status
    tick := cl.T.getD app.tick
    workers := cl.w.getD app.workers }

/-- A Go `error` value that is not `nil`. -/
abbrev GoError := String

/-- Go run-time panics that the embedded code can raise. -/
inductive Panic where
  | nilDereference
  | nonPositiveInterval
  deriving DecidableEq, Repr

/-- The answer of `readConfigFile`: the `Yaml` it returns and its `error` (`none` for `nil`). -/
abbrev ConfigRead := Yaml × Option GoError

/-- `App.init` (lines 87-115). `Except.error` is `log.Fatal`: the process exits with status 1. -/
def App.init (app : App) (cl : CmdLine) (cfg : ConfigRead) : Except GoError App :=
  let yml := cfg.1
  match cfg.2 with
  | some err => .error err
  | none =>
    let app := if yml.GeneralConfig.Port ≠ 0 then { app with port := yml.GeneralConfig.Port } else app
    let app := if yml.GeneralConfig.Tick ≠ 0 then { app with tick := yml.GeneralConfig.Tick } else app
    let app := if yml.GeneralConfig.Workers ≠ 0 then { app with workers := yml.GeneralConfig.Workers } else app
    let app := if yml.Defaults.Endpoint.length > 0 then { app with endpoint := yml.Defaults.Endpoint } else app
    let app := if yml.Defaults.Status ≠ 0 then { app with status := yml.Defaults.Status } else app
    let app := { app with inventory := yml.Inventory }
    .ok (flagParse cl app)

/-! ## The result store and its snapshot (chouf.go, lines 292-329) -/

/-- `getResults` (lines 319-329): the loop over the inventory appending to the slice `s`. -/
def getResults (app : App) : List Result :=
  app.inventory.foldl
    (fun s site =>
      match app.results.Load site.Domain with
      | some data => s ++ [data]
      | none => s)
    []

/-- The store of `worker` (line 297): `app.results.Store(result.Domain, result)`. -/
def workerStore (app : App) (result : Result) : App :=
  { app with results := app.results.Store result.Domain result }

/-- Every entry of the store is filed under the domain of its own result. The program starts
with the empty store and writes to it only at line 297. -/
def SyncMap.Keyed (m : SyncMap) : Prop :=
  ∀ e ∈ m, e.2.Domain = e.1

instance (m : SyncMap) : Decidable m.Keyed := by
  unfold SyncMap.Keyed; infer_instance

/-- The snapshot as the specification words it: walk the inventory in order and keep, for each
target whose domain has a store entry, that entry. -/
def snapshotSpec (inventory : List Website) (store : SyncMap) : List Result :=
  match inventory with
  | [] => []
  | site :: rest =>
    match store.Load site.Domain with
    | some r => r :: snapshotSpec rest store
    | none => snapshotSpec rest store

/-! ## The prober (chouf.go, lines 385-423) -/

/-- What `http.NewRequest` and `client.Do` give for one probe. `newRequest` is `false` when
`http.NewRequest` returns a `nil` request (with an error). `response` is the status code of the
response of `client.Do`, `none` when it returns a `nil` response; `doErr` is its error. A
transport failure (DNS, TLS, connection refused, timeout) is `response = none` with an error. -/
structure Probe where
  newRequest : Bool
  response : Option Int
  doErr : Option GoError
  deriving DecidableEq, Repr

/-- `process` (lines 385-423). `now` is `time.Now().Format(time.RFC3339)`. The endpoint
(lines 389-392) and the URL built from it (line 402) only select the request that is made; what
that request gives is the argument `net`. The two errors are only logged (lines 405-407 and
411-413); `req.Header.Set` dereferences `req` and `res.StatusCode` dereferences `res`. -/
def process (app : App) (website : Website) (net : Probe) (now : String) : Except Panic Result :=
  let ok := true
  let status := app.status
  let status := if website.Status ≠ 0 then website.Status else status
  if ¬ net.newRequest then .error Panic.nilDereference
  else
    match net.response with
    | none => .error Panic.nilDereference
    | some statusCode =>
      let ok := if statusCode ≠ status then false else ok
      .ok { Domain := website.Domain, Ok := ok, LastCheck := now }

/-- One round of `worker` (lines 294-299): probe, store, publish. The second component is
the value sent on `resChan`. -/
def worker (app : App) (job : Website) (net : Probe) (now : String) : Except Panic (App × Result) :=
  match process app job net now with
  | .error p => .error p
  | .ok result => .ok (workerStore app result, result)

/-! ## Alerts (chouf.go, lines 276-290) -/

/-- The message `sendEmail` builds (lines 277-285). -/
def emailMessage (app : App) (result : Result) : String :=
  let state := "DOWN"
  let body := "The website " ++ result.Domain ++
    " appears to be down. We will let you know when it is up again.\r\n"
  let state := if result.Ok then "UP" else state
  let body := if result.Ok then
      "The website " ++ result.Domain ++ " is responding correctly again. =)\r\n"
    else body
  "To: " ++ app.smtp_to ++ "\r\n" ++
    "Subject: [Chouf Alert] " ++ result.Domain ++ " is " ++ state ++ "!\r\n" ++
    "\r\n" ++ body

/-! ## The event loop of `main` (chouf.go, lines 183-274) -/

/-- What one iteration of the loop does to the outside world. -/
inductive Effect where
  | job (website : Website)
  | writeJSON (ws : Conn) (result : Result)
  | wsClose (ws : Conn)
  | sendEmail (result : Result) (msg : String)
  deriving DecidableEq, Repr

/-- A `*time.Ticker`: it fires every `period`, and nothing in the program changes the period
of an existing ticker. -/
structure Ticker where
  period : Duration
  deriving DecidableEq, Repr

/-- Go `time.NewTicker`, which panics unless the duration is positive. -/
def NewTicker (d : Duration) : Except Panic Ticker :=
  if d ≤ 0 then .error Panic.nonPositiveInterval else .ok { period := d }

/-- The variables of `main` that live across iterations of the loop. -/
structure MainState where
  app : App
  cl : CmdLine
  ticker : Ticker
  hasTicked : Bool
  deriving DecidableEq, Repr

/-- The channel `tickerChan()` returns: a fresh channel holding one value, or `ticker.C`. -/
inductive TickSource where
  | immediate
  | tickerC (ticker : Ticker)
  deriving DecidableEq, Repr

/-- The closure `tickerChan` (lines 190-198), with its write to `hasTicked`. -/
def tickerChan (st : MainState) : TickSource × MainState :=
  if ¬ st.hasTicked then (TickSource.immediate, { st with hasTicked := true })
  else (TickSource.tickerC st.ticker, st)

/-- Lines 184-186 of `main`: the ticker is created from `app.tick` once `app.init` is done. -/
def startLoop (app : App) (cl : CmdLine) : Except Panic MainState :=
  match NewTicker app.tick with
  | .error e => .error e
  | .ok ticker => .ok { app := app, cl := cl, ticker := ticker, hasTicked := false }

inductive Signal where
  | SIGINT
  | SIGTERM
  | SIGHUP
  deriving DecidableEq, Repr

/-- The case of the `select` that fires, with what the outside world answers during it:
`writeErr` says whether `app.ws.WriteJSON` returns an error (read only when a subscriber is
attached), `cfg` is what `readConfigFile` returns (read only for `SIGHUP`). -/
inductive Event where
  | tick
  | result (result : Result) (writeErr : Bool)
  | signal (s : Signal) (cfg : ConfigRead)
  deriving DecidableEq, Repr

/-- Where the loop stands after an iteration: still looping, left by `break loop`, or the
process has exited through `log.Fatal`. -/
inductive Control where
  | running (st : MainState)
  | stopped (st : MainState)
  | fatal (err : GoError)
  deriving DecidableEq, Repr

/-- The websocket push of the `resChan` case (lines 248-254). -/
def pushResult (app : App) (result : Result) (writeErr : Bool) : App × List Effect :=
  match app.ws with
  | some ws =>
    if writeErr then ({ app with ws := none }, [Effect.writeJSON ws result, Effect.wsClose ws])
    else (app, [Effect.writeJSON ws result])
  | none => (app, [])

/-- The change detection loop of the `resChan` case (lines 256-261). -/
def detectChange (app : App) (result : Result) : List Effect :=
  (getResults app).foldl
    (fun effs site =>
      if result.Domain = site.Domain ∧ result.Ok ≠ site.Ok then
        effs ++ [Effect.sendEmail result (emailMessage app result)]
      else effs)
    []

/-- The `resChan` case (lines 246-261). -/
def handleResult (app : App) (result : Result) (writeErr : Bool) : App × List Effect :=
  let pushed := pushResult app result writeErr
  (pushed.1, pushed.2 ++ detectChange pushed.1 result)

/-- One iteration of the loop (lines 237-273), for whatever state the workers and the
handlers have left `app` in when the iteration starts. The sends of the tick case are taken to
go through: the capacity of `jobs` and `resChan`, fixed at startup from the inventory of that
moment (lines 205-207), is not part of the state, so an iteration whose send blocks for ever has
no counterpart here. -/
def step (st : MainState) (ev : Event) : Control × List Effect :=
  let st := (tickerChan st).2
  match ev with
  | Event.tick => (Control.running st, st.app.inventory.map Effect.job)
  | Event.result result writeErr =>
    let handled := handleResult st.app result writeErr
    (Control.running { st with app := handled.1 }, handled.2)
  | Event.signal Signal.SIGINT _ => (Control.stopped st, [])
  | Event.signal Signal.SIGTERM _ => (Control.stopped st, [])
  | Event.signal Signal.SIGHUP cfg =>
    match App.init st.app st.cl cfg with
    | .error err => (Control.fatal err, [])
    | .ok app => (Control.running { st with app := app }, [])

/-- The loop over a list of events, stopping at the first iteration that leaves it. -/
def run (st : MainState) (evs : List Event) : Control × List Effect :=
  match evs with
  | [] => (Control.running st, [])
  | ev :: rest =>
    match step st ev with
    | (Control.running st1, effs) =>
      let later := run st1 rest
      (later.1, effs ++ later.2)
    | (c, effs) => (c, effs)

/-- One completion in the program's order: the worker stores the result (line 297), publishes
it (line 298), and the loop handles it. This is the one schedule in which nothing happens
between the store and the handling. The worker and the loop are different goroutines joined by
the buffered `resChan` (line 207), so other stores can fall in between; statements about every
schedule are made on `step`, at the state the loop finds. -/
def complete (st : MainState) (result : Result) (writeErr : Bool) : Control × List Effect :=
  step { st with app := workerStore st.app result } (Event.result result writeErr)

/-- A list of completions, each in the program's order, one after the other. -/
def completeAll (st : MainState) (cs : List (Result × Bool)) : Control × List Effect :=
  match cs with
  | [] => (Control.running st, [])
  | c :: rest =>
    match complete st c.1 c.2 with
    | (Control.running st1, effs) =>
      let later := completeAll st1 rest
      (later.1, effs ++ later.2)
    | (ctl, effs) => (ctl, effs)

/-- The results passed to `sendEmail` among a list of effects. -/
def alerts (effs : List Effect) : List Result :=
  effs.filterMap (fun e => match e with
    | Effect.sendEmail result _ => some result
    | _ => none)

/-- The websocket writes attempted among a list of effects. -/
def pushes (effs : List Effect) : List (Conn × Result) :=
  effs.filterMap (fun e => match e with
    | Effect.writeJSON ws result => some (ws, result)
    | _ => none)

/-! ## Environment helpers (utils.go) -/

/-- The process environment, as `os.LookupEnv` sees it. -/
abbrev Env := String → Option String

/-- `GetStrEnv` (utils.go, lines 51-56). -/
def GetStrEnv (env : Env) (key : String) (fallback : String) : String :=
  match env key with
  | some value => value
  | none => fallback

/-- `GetDurationEnv` (utils.go, lines 29-36). `ParseDuration` is Go's `time.ParseDuration`,
from the standard library. -/
def GetDurationEnv (env : Env) (ParseDuration : String → Except GoError Duration)
    (key : String) (fallback : Duration) : Duration :=
  let envVal := GetStrEnv env key "5m"
  match ParseDuration envVal with
  | .ok duration => duration
  | .error _ => fallback

/-! ## Concrete inputs

The defaults are those of the `const` block of `main` (lines 123-136); the inventory is the
one of the specification's scenario: target A without override, target B expecting 503. -/

def siteA : Website :=
  { Domain := "a.example", Name := "", CertExpiration := false, Endpoint := "", Status := 0 }

def siteB : Website :=
  { Domain := "b.example", Name := "", CertExpiration := false, Endpoint := "", Status := 503 }

def demoApp : App :=
  { configPath := "/etc/chouf/config.yml", debug := false, endpoint := "/",
    inventory := [siteA, siteB], port := 3003, results := [],
    smtp_from := "chouf@example.com", smtp_hostname := "mail.example.com",
    smtp_login := "chouf", smtp_password := "s3cret", smtp_port := 587,
    smtp_to := "null@example.com", status := 200, tick := 5 * Minute, workers := 5,
    ws := none }

/-- A command line without flags. -/
def noFlags : CmdLine :=
  { c := none, d := none, e := none, p := none, s := none, T := none, w := none }

/-- The loop of `demoApp`, its ticker created from the tick of five minutes. -/
def demoState : MainState :=
  { app := demoApp, cl := noFlags, ticker := { period := 5 * Minute }, hasTicked := true }

/-- The loop of `demoApp` with the subscriber 7 attached. -/
def demoAttached : MainState :=
  { demoState with app := { demoApp with ws := some 7 } }

def upA : Result := { Domain := "a.example", Ok := true, LastCheck := "2022-10-01T10:00:00Z" }

def downA : Result := { Domain := "a.example", Ok := false, LastCheck := "2022-10-01T10:05:00Z" }

def upB : Result := { Domain := "b.example", Ok := true, LastCheck := "2022-10-01T10:00:01Z" }

/-- The loop of `demoApp` with the subscriber 7 attached and a result for target B stored. -/
def demoBusy : MainState :=
  { demoState with app := workerStore { demoApp with ws := some 7 } upB }

/-- A later result for target A that is up again. -/
def upAgainA : Result :=
  { Domain := "a.example", Ok := true, LastCheck := "2022-10-01T10:10:00Z" }

/-- A result for a domain that is not in the inventory of `demoApp`. -/
def staleC : Result := { Domain := "c.example", Ok := true, LastCheck := "2022-09-30T10:00:00Z" }

/-- A configuration file that sets the tick to one minute and keeps the inventory. -/
def ymlOneMinute : Yaml :=
  { GeneralConfig := { Port := 0, Tick := Minute, Workers := 0 },
    Defaults := { Endpoint := "", Status := 0 },
    Inventory := [siteA, siteB] }

/-- The zero value `Yaml{}` that `readConfigFile` returns next to a read error. -/
def ymlZero : Yaml :=
  { GeneralConfig := { Port := 0, Tick := 0, Workers := 0 },
    Defaults := { Endpoint := "", Status := 0 },
    Inventory := [] }

/-- An environment in which only `CHOUF_INTERVAL` is set, to `90s`. -/
def demoEnv : Env := fun key => if key = "CHOUF_INTERVAL" then some "90s" else none

/-- A stand-in for `time.ParseDuration` on the three strings used below: it accepts `5m`
and `90s` with the values Go gives them and rejects everything else. -/
def demoParseDuration (s : String) : Except GoError Duration :=
  if s = "5m" then .ok (5 * Minute)
  else if s = "90s" then .ok 90000000000
  else .error ("time: invalid duration " ++ s)

/-! ## Lemmas on the store -/

theorem SyncMap.Load_filter_ne (m : SyncMap) (key k : String) (h : k ≠ key) :
    SyncMap.Load (m.filter (fun e => decide (e.1 ≠ key))) k = SyncMap.Load m k := by
  induction m with
  | nil => rfl
  | cons e rest ih =>
    obtain ⟨k0, v0⟩ := e
    by_cases hk : k0 = key
    · have hne : ¬ key = k := fun h0 => h h0.symm
      rw [List.filter_cons_of_neg (by simp [hk]), ih]
      simp [SyncMap.Load, hk, hne]
    · rw [List.filter_cons_of_pos (by simp [hk])]
      simp only [SyncMap.Load, ih]

theorem SyncMap.Load_Store_self (m : SyncMap) (key : String) (value : Result) :
    (m.Store key value).Load key = some value := by
  simp [SyncMap.Store, SyncMap.Load]

theorem SyncMap.Load_Store_ne (m : SyncMap) (key k : String) (value : Result) (h : k ≠ key) :
    (m.Store key value).Load k = m.Load k := by
  have h1 : key ≠ k := Ne.symm h
  simp only [SyncMap.Store, SyncMap.Load, h1, if_false]
  exact SyncMap.Load_filter_ne m key k h

theorem SyncMap.Keyed_nil : SyncMap.Keyed [] := by
  intro e he
  cases he

theorem SyncMap.Keyed_Store (m : SyncMap) (hk : m.Keyed) (result : Result) :
    (m.Store result.Domain result).Keyed := by
  intro e he
  simp only [SyncMap.Store, List.mem_cons, List.mem_filter] at he
  rcases he with rfl | ⟨hm, _⟩
  · rfl
  · exact hk e hm

/-- Every store the workers can build from the empty one is keyed by domain. -/
theorem workerStore_history_Keyed (app : App) (h : app.results.Keyed) (rs : List Result) :
    (rs.foldl workerStore app).results.Keyed := by
  induction rs generalizing app with
  | nil => exact h
  | cons r rest ih => exact ih (workerStore app r) (SyncMap.Keyed_Store _ h r)

theorem SyncMap.Keyed_Load (m : SyncMap) (hk : m.Keyed) (key : String) (r : Result)
    (h : m.Load key = some r) : r.Domain = key := by
  induction m with
  | nil => simp [SyncMap.Load] at h
  | cons e rest ih =>
    obtain ⟨k0, v0⟩ := e
    by_cases h0 : k0 = key
    · simp [SyncMap.Load, h0] at h
      have := hk (k0, v0) (List.mem_cons_self _ _)
      simp at this
      rw [← h, this, h0]
    · simp [SyncMap.Load, h0] at h
      exact ih (fun e he => hk e (List.mem_cons_of_mem _ he)) h

/-! ## Lemmas on the snapshot -/

theorem getResults_foldl_acc (store : SyncMap) (inventory : List Website) (acc : List Result) :
    inventory.foldl
      (fun s site =>
        match store.Load site.Domain with
        | some data => s ++ [data]
        | none => s)
      acc = acc ++ snapshotSpec inventory store := by
  induction inventory generalizing acc with
  | nil => simp [snapshotSpec]
  | cons site rest ih =>
    simp only [List.foldl_cons, snapshotSpec]
    cases h : store.Load site.Domain with
    | none => simp [ih]
    | some r => simp [ih]

theorem getResults_eq_snapshotSpec (app : App) :
    getResults app = snapshotSpec app.inventory app.results := by
  unfold getResults
  rw [getResults_foldl_acc]
  simp

theorem snapshotSpec_mem (inventory : List Website) (store : SyncMap) (r : Result)
    (h : r ∈ snapshotSpec inventory store) :
    ∃ site ∈ inventory, store.Load site.Domain = some r := by
  induction inventory with
  | nil => simp [snapshotSpec] at h
  | cons site rest ih =>
    simp only [snapshotSpec] at h
    cases hl : store.Load site.Domain with
    | none =>
      rw [hl] at h
      obtain ⟨s, hs, hs2⟩ := ih h
      exact ⟨s, List.mem_cons_of_mem _ hs, hs2⟩
    | some r0 =>
      rw [hl] at h
      rcases List.mem_cons.1 h with rfl | h0
      · exact ⟨site, List.mem_cons_self _ _, hl⟩
      · obtain ⟨s, hs, hs2⟩ := ih h0
        exact ⟨s, List.mem_cons_of_mem _ hs, hs2⟩

theorem snapshotSpec_append (a b : List Website) (store : SyncMap) :
    snapshotSpec (a ++ b) store = snapshotSpec a store ++ snapshotSpec b store := by
  induction a with
  | nil => simp [snapshotSpec]
  | cons site rest ih =>
    simp only [List.cons_append, snapshotSpec]
    cases store.Load site.Domain <;> simp [ih]

theorem snapshotSpec_congr (inventory : List Website) (m1 m2 : SyncMap)
    (h : ∀ site ∈ inventory, m1.Load site.Domain = m2.Load site.Domain) :
    snapshotSpec inventory m1 = snapshotSpec inventory m2 := by
  induction inventory with
  | nil => simp [snapshotSpec]
  | cons site rest ih =>
    simp only [snapshotSpec]
    rw [h site (List.mem_cons_self _ _), ih (fun s hs => h s (List.mem_cons_of_mem _ hs))]

theorem snapshotSpec_domain_mem (inventory : List Website) (store : SyncMap) (hk : store.Keyed)
    (r : Result) (h : r ∈ snapshotSpec inventory store) :
    r.Domain ∈ inventory.map Website.Domain := by
  obtain ⟨site, hs, hl⟩ := snapshotSpec_mem inventory store r h
  rw [SyncMap.Keyed_Load store hk site.Domain r hl]
  exact List.mem_map_of_mem _ hs

theorem snapshotSpec_filter_absent (inventory : List Website) (store : SyncMap)
    (hk : store.Keyed) (d : String) (hd : d ∉ inventory.map Website.Domain) :
    (snapshotSpec inventory store).filter (fun x => decide (x.Domain = d)) = [] := by
  rw [List.filter_eq_nil_iff]
  intro r hr
  have := snapshotSpec_domain_mem inventory store hk r hr
  simp only [decide_eq_true_eq]
  intro h0
  exact hd (h0 ▸ this)

theorem snapshotSpec_filter_present (inventory : List Website) (store : SyncMap)
    (hk : store.Keyed) (d : String) (r : Result) (hl : store.Load d = some r)
    (hnd : (inventory.map Website.Domain).Nodup) (hd : d ∈ inventory.map Website.Domain) :
    (snapshotSpec inventory store).filter (fun x => decide (x.Domain = d)) = [r] := by
  induction inventory with
  | nil => simp at hd
  | cons site rest ih =>
    simp only [List.map_cons, List.nodup_cons] at hnd
    simp only [snapshotSpec]
    by_cases hs : site.Domain = d
    · have hrest : d ∉ rest.map Website.Domain := hs ▸ hnd.1
      have hrd : r.Domain = d := SyncMap.Keyed_Load store hk d r hl
      rw [hs, hl, List.filter_cons_of_pos (by simp [hrd]),
        snapshotSpec_filter_absent rest store hk d hrest]
    · have hd2 : d ∈ rest.map Website.Domain := by
        simp only [List.map_cons, List.mem_cons] at hd
        rcases hd with h0 | h0
        · exact absurd h0.symm hs
        · exact h0
      cases hl0 : store.Load site.Domain with
      | none => exact ih hnd.2 hd2
      | some r0 =>
        have h0 : r0.Domain = site.Domain := SyncMap.Keyed_Load store hk _ r0 hl0
        have h1 : ¬ r0.Domain = d := fun h2 => hs (h0.symm.trans h2)
        simp only []
        rw [List.filter_cons_of_neg (by simp [h1])]
        exact ih hnd.2 hd2

theorem snapshotSpec_filter_other (inventory : List Website) (store : SyncMap)
    (hk : store.Keyed) (r : Result) :
    (snapshotSpec inventory (store.Store r.Domain r)).filter
        (fun x => decide (x.Domain ≠ r.Domain))
      = (snapshotSpec inventory store).filter (fun x => decide (x.Domain ≠ r.Domain)) := by
  induction inventory with
  | nil => simp [snapshotSpec]
  | cons site rest ih =>
    simp only [snapshotSpec]
    by_cases hs : site.Domain = r.Domain
    · rw [hs, SyncMap.Load_Store_self]
      simp only []
      rw [List.filter_cons_of_neg (by simp), ih]
      cases hl0 : store.Load r.Domain with
      | none => rfl
      | some r0 =>
        have h0 : r0.Domain = r.Domain := SyncMap.Keyed_Load store hk _ r0 hl0
        simp only []
        rw [List.filter_cons_of_neg (by simp [h0])]
    · rw [SyncMap.Load_Store_ne store r.Domain site.Domain r hs]
      cases hl0 : store.Load site.Domain with
      | none => exact ih
      | some r0 =>
        simp only [List.filter_cons, ih]

/-! ## The snapshot (claims C3 and C4) -/

/-- C3: `getResults` returns exactly the list obtained by walking the current inventory in
order and keeping, for each entry whose domain has a store entry, that stored result. An
inventory entry whose domain has no store entry contributes nothing: the snapshot is that of the
inventory without it. A domain absent from the inventory never appears: whatever stale result
the store holds for it, the snapshot is the same, and in a store filled by the worker no
snapshot entry carries that domain. -/
theorem C3_getResults_snapshot (app : App) :
    getResults app = snapshotSpec app.inventory app.results
    ∧ (∀ (pre post : List Website) (site : Website),
        app.inventory = pre ++ site :: post → app.results.Load site.Domain = none →
        getResults app = getResults { app with inventory := pre ++ post })
    ∧ (∀ d : String, d ∉ app.inventory.map Website.Domain →
        (∀ stale : Result,
          getResults { app with results := app.results.Store d stale } = getResults app)
        ∧ (app.results.Keyed → ∀ r ∈ getResults app, r.Domain ≠ d)) := by
  refine ⟨getResults_eq_snapshotSpec app, ?_, ?_⟩
  · intro pre post site hinv hl
    rw [getResults_eq_snapshotSpec, getResults_eq_snapshotSpec, hinv]
    simp only [snapshotSpec_append, snapshotSpec, hl]
  · intro d hd
    constructor
    · intro stale
      rw [getResults_eq_snapshotSpec, getResults_eq_snapshotSpec]
      apply snapshotSpec_congr
      intro site hs
      apply SyncMap.Load_Store_ne
      intro h0
      exact hd (h0 ▸ List.mem_map_of_mem _ hs)
    · intro hk r hr h0
      rw [getResults_eq_snapshotSpec] at hr
      exact hd (h0 ▸ snapshotSpec_domain_mem _ _ hk r hr)

theorem C3_getResults_snapshot_witness :
    getResults (workerStore (workerStore demoApp upB) staleC)
        = snapshotSpec [siteA, siteB] [("c.example", staleC), ("b.example", upB)]
    ∧ getResults (workerStore (workerStore demoApp upB) staleC) = [upB]
    ∧ (workerStore (workerStore demoApp upB) staleC).results.Load siteA.Domain = none
    ∧ getResults (workerStore (workerStore demoApp upB) staleC)
        = getResults { workerStore (workerStore demoApp upB) staleC with
            inventory := [] ++ [siteB] }
    ∧ (workerStore (workerStore demoApp upB) staleC).results.Load "c.example" = some staleC
    ∧ "c.example" ∉ (workerStore (workerStore demoApp upB) staleC).inventory.map Website.Domain
    ∧ (∀ r ∈ getResults (workerStore (workerStore demoApp upB) staleC),
        r.Domain ≠ "c.example") :=
  ⟨(C3_getResults_snapshot (workerStore (workerStore demoApp upB) staleC)).1,
    by decide, by decide,
    (C3_getResults_snapshot (workerStore (workerStore demoApp upB) staleC)).2.1
      [] [siteB] siteA (by decide) (by decide),
    by decide, by decide,
    ((C3_getResults_snapshot (workerStore (workerStore demoApp upB) staleC)).2.2
      "c.example" (by decide)).2 (by decide)⟩

/-- C4: in an inventory with unique domains, once the worker has stored a result `r` for a
target of the inventory, the snapshot holds exactly one entry for that domain and it is `r`;
after a later result `r2` for the same domain that one entry is `r2`, whole; and both stores
leave the entries of every other domain as they were. -/
theorem C4_store_then_snapshot (app : App) (r r2 : Result)
    (hnd : (app.inventory.map Website.Domain).Nodup)
    (hin : r.Domain ∈ app.inventory.map Website.Domain)
    (hk : app.results.Keyed)
    (h2 : r2.Domain = r.Domain) :
    (getResults (workerStore app r)).filter (fun x => decide (x.Domain = r.Domain)) = [r]
    ∧ (getResults (workerStore (workerStore app r) r2)).filter
        (fun x => decide (x.Domain = r.Domain)) = [r2]
    ∧ (getResults (workerStore app r)).filter (fun x => decide (x.Domain ≠ r.Domain))
        = (getResults app).filter (fun x => decide (x.Domain ≠ r.Domain))
    ∧ (getResults (workerStore (workerStore app r) r2)).filter
        (fun x => decide (x.Domain ≠ r.Domain))
        = (getResults app).filter (fun x => decide (x.Domain ≠ r.Domain)) := by
  have hk1 : (app.results.Store r.Domain r).Keyed := SyncMap.Keyed_Store _ hk r
  have hk2 : ((app.results.Store r.Domain r).Store r2.Domain r2).Keyed :=
    SyncMap.Keyed_Store _ hk1 r2
  simp only [getResults_eq_snapshotSpec, workerStore]
  refine ⟨?_, ?_, ?_, ?_⟩
  · exact snapshotSpec_filter_present _ _ hk1 _ r (SyncMap.Load_Store_self _ _ _) hnd hin
  · refine snapshotSpec_filter_present _ _ hk2 _ r2 ?_ hnd hin
    rw [h2]
    exact SyncMap.Load_Store_self _ _ _
  · exact snapshotSpec_filter_other _ _ hk r
  · have h3 := snapshotSpec_filter_other app.inventory _ hk1 r2
    rw [h2] at h3
    rw [h2, h3]
    exact snapshotSpec_filter_other _ _ hk r

theorem C4_store_then_snapshot_witness :
    ((demoApp.inventory.map Website.Domain).Nodup
      ∧ upA.Domain ∈ demoApp.inventory.map Website.Domain
      ∧ (workerStore demoApp upB).results.Keyed
      ∧ downA.Domain = upA.Domain)
    ∧ (getResults (workerStore (workerStore demoApp upB) upA)).filter
        (fun x => decide (x.Domain = upA.Domain)) = [upA]
    ∧ (getResults (workerStore (workerStore (workerStore demoApp upB) upA) downA)).filter
        (fun x => decide (x.Domain = upA.Domain)) = [downA]
    ∧ (getResults (workerStore (workerStore demoApp upB) upA)).filter
        (fun x => decide (x.Domain ≠ upA.Domain))
        = (getResults (workerStore demoApp upB)).filter
            (fun x => decide (x.Domain ≠ upA.Domain))
    ∧ (getResults (workerStore (workerStore (workerStore demoApp upB) upA) downA)).filter
        (fun x => decide (x.Domain ≠ upA.Domain))
        = (getResults (workerStore demoApp upB)).filter
            (fun x => decide (x.Domain ≠ upA.Domain)) :=
  ⟨⟨by decide, by decide, by decide, by decide⟩,
    C4_store_then_snapshot (workerStore demoApp upB) upA downA
      (by decide) (by decide) (by decide) (by decide)⟩

/-! ## Lemmas on the event loop -/

theorem tickerChan_app (st : MainState) : (tickerChan st).2.app = st.app := by
  unfold tickerChan
  split <;> rfl

theorem tickerChan_ticker (st : MainState) : (tickerChan st).2.ticker = st.ticker := by
  unfold tickerChan
  split <;> rfl

theorem tickerChan_cl (st : MainState) : (tickerChan st).2.cl = st.cl := by
  unfold tickerChan
  split <;> rfl

theorem pushResult_inventory (app : App) (result : Result) (writeErr : Bool) :
    (pushResult app result writeErr).1.inventory = app.inventory := by
  unfold pushResult
  split
  · split <;> rfl
  · rfl

theorem pushResult_results (app : App) (result : Result) (writeErr : Bool) :
    (pushResult app result writeErr).1.results = app.results := by
  unfold pushResult
  split
  · split <;> rfl
  · rfl

theorem alerts_pushResult (app : App) (result : Result) (writeErr : Bool) :
    alerts (pushResult app result writeErr).2 = [] := by
  unfold pushResult
  split
  · split <;> rfl
  · rfl

theorem pushResult_none (app : App) (result : Result) (writeErr : Bool) (h : app.ws = none) :
    pushResult app result writeErr = (app, []) := by
  unfold pushResult
  rw [h]

theorem getResults_congr (a b : App) (hi : a.inventory = b.inventory)
    (hr : a.results = b.results) : getResults a = getResults b := by
  unfold getResults
  rw [hi, hr]

/-- The change detection loop as a filter of the snapshot. -/
theorem detectChange_foldl_acc (app : App) (result : Result) (l : List Result)
    (acc : List Effect) :
    l.foldl
      (fun effs site =>
        if result.Domain = site.Domain ∧ result.Ok ≠ site.Ok then
          effs ++ [Effect.sendEmail result (emailMessage app result)]
        else effs)
      acc
    = acc ++ (l.filter (fun site =>
        decide (result.Domain = site.Domain ∧ result.Ok ≠ site.Ok))).map
          (fun _ => Effect.sendEmail result (emailMessage app result)) := by
  induction l generalizing acc with
  | nil => simp
  | cons site rest ih =>
    simp only [List.foldl_cons]
    by_cases h : result.Domain = site.Domain ∧ result.Ok ≠ site.Ok
    · rw [if_pos h, ih, List.filter_cons_of_pos (by simpa using h)]
      simp
    · rw [if_neg h, ih, List.filter_cons_of_neg (by simpa using h)]

theorem detectChange_eq (app : App) (result : Result) :
    detectChange app result
      = ((getResults app).filter (fun site =>
          decide (result.Domain = site.Domain ∧ result.Ok ≠ site.Ok))).map
            (fun _ => Effect.sendEmail result (emailMessage app result)) := by
  unfold detectChange
  rw [detectChange_foldl_acc]
  simp

theorem alerts_append (a b : List Effect) : alerts (a ++ b) = alerts a ++ alerts b := by
  simp [alerts, List.filterMap_append]

theorem pushes_append (a b : List Effect) : pushes (a ++ b) = pushes a ++ pushes b := by
  simp [pushes, List.filterMap_append]

theorem pushes_detectChange (app : App) (result : Result) :
    pushes (detectChange app result) = [] := by
  rw [detectChange_eq]
  simp [pushes, List.filterMap_map, Function.comp_def]

/-- In a store filled by the worker, every snapshot entry for the domain of the result just
stored is that result. -/
theorem getResults_workerStore_same (app : App) (hk : app.results.Keyed) (result site : Result)
    (hs : site ∈ getResults (workerStore app result)) (hd : result.Domain = site.Domain) :
    site = result := by
  rw [getResults_eq_snapshotSpec] at hs
  obtain ⟨w, _, hl⟩ := snapshotSpec_mem _ _ _ hs
  simp only [workerStore] at hl
  by_cases h0 : w.Domain = result.Domain
  · rw [h0, SyncMap.Load_Store_self] at hl
    exact (Option.some.inj hl).symm
  · rw [SyncMap.Load_Store_ne _ _ _ _ h0] at hl
    exact absurd ((SyncMap.Keyed_Load _ hk _ _ hl).symm.trans hd.symm) h0

/-- A completion handled in the program's order never reaches `sendEmail`: the snapshot it is
compared with already holds the result itself. -/
theorem complete_alerts_nil (st : MainState) (hk : st.app.results.Keyed) (result : Result)
    (writeErr : Bool) :
    alerts (complete st result writeErr).2 = [] := by
  simp only [complete, step, handleResult, alerts_append, alerts_pushResult, List.nil_append]
  rw [detectChange_eq]
  have hnil : ∀ a : App, a.inventory = st.app.inventory →
      a.results = st.app.results.Store result.Domain result →
      (getResults a).filter (fun site =>
        decide (result.Domain = site.Domain ∧ result.Ok ≠ site.Ok)) = [] := by
    intro a hi hr
    rw [List.filter_eq_nil_iff]
    intro site hsite
    have hc : getResults a = getResults (workerStore st.app result) :=
      getResults_congr _ _ hi hr
    rw [hc] at hsite
    simp only [decide_eq_true_eq, not_and, not_not]
    intro hd
    rw [getResults_workerStore_same st.app hk result site hsite hd]
  rw [hnil]
  · rfl
  · rw [pushResult_inventory, tickerChan_app]
    rfl
  · rw [pushResult_results, tickerChan_app]
    rfl

theorem complete_running (st : MainState) (result : Result) (writeErr : Bool) :
    ∃ st1, (complete st result writeErr).1 = Control.running st1
      ∧ st1.app.inventory = st.app.inventory
      ∧ st1.app.results = st.app.results.Store result.Domain result
      ∧ st1.ticker = st.ticker := by
  refine ⟨_, rfl, ?_, ?_, ?_⟩
  · simp only [handleResult]
    rw [pushResult_inventory, tickerChan_app]
    rfl
  · simp only [handleResult]
    rw [pushResult_results, tickerChan_app]
    rfl
  · exact tickerChan_ticker _

/-! ## Change detection (claims C1 and C2) -/

/-- C1, evaluated on the code: target A is in the inventory, its first completion is up and
its second is down, each stored by the worker and then handled by the loop. Handling the second
one calls `sendEmail` zero times, not once: the snapshot it is compared with already holds the
second result, as the final snapshot shows. -/
theorem C1_flip_in_program_order_sends_no_alert :
    upA.Domain = downA.Domain ∧ upA.Ok ≠ downA.Ok
    ∧ upA.Domain ∈ demoState.app.inventory.map Website.Domain
    ∧ ∃ st1 st2 : MainState,
        complete demoState upA false = (Control.running st1, [])
        ∧ complete st1 downA false = (Control.running st2, [])
        ∧ alerts (complete st1 downA false).2 = []
        ∧ getResults st2.app = [downA] := by
  refine ⟨by decide, by decide, by decide, ?_⟩
  refine ⟨{ demoState with app := workerStore demoApp upA },
    { demoState with app := workerStore (workerStore demoApp upA) downA }, ?_, ?_, ?_, ?_⟩
  · decide
  · decide
  · decide
  · decide

/-- What `Load` finds after the workers have stored a list of results, one after the other,
is one of those results or what was there before. -/
theorem workerStore_history_Load (rs : List Result) (app : App) (key : String) (x : Result)
    (h : (rs.foldl workerStore app).results.Load key = some x) :
    x ∈ rs ∨ app.results.Load key = some x := by
  induction rs generalizing app with
  | nil => exact Or.inr h
  | cons r rest ih =>
    rcases ih (workerStore app r) h with hmem | hload
    · exact Or.inl (List.mem_cons_of_mem _ hmem)
    · by_cases hkey : key = r.Domain
      · simp only [workerStore] at hload
        rw [hkey, SyncMap.Load_Store_self] at hload
        exact Or.inl (by rw [← Option.some.inj hload]; exact List.mem_cons_self _ _)
      · simp only [workerStore] at hload
        rw [SyncMap.Load_Store_ne _ _ _ _ hkey] at hload
        exact Or.inr hload

/-- The change detection loop sends nothing when the store, keyed by domain, holds for the
domain of the handled result an entry with the same `Ok`, or none. -/
theorem detectChange_nil_of_same_Ok (app : App) (hk : app.results.Keyed) (result : Result)
    (h : ∀ cur, app.results.Load result.Domain = some cur → cur.Ok = result.Ok) :
    detectChange app result = [] := by
  rw [detectChange_eq, List.map_eq_nil_iff, List.filter_eq_nil_iff]
  intro site hsite
  rw [getResults_eq_snapshotSpec] at hsite
  obtain ⟨w, _, hl⟩ := snapshotSpec_mem _ _ _ hsite
  simp only [decide_eq_true_eq, not_and, not_not]
  intro hd
  have hw : site.Domain = w.Domain := SyncMap.Keyed_Load _ hk _ _ hl
  rw [← hw, ← hd] at hl
  exact (h site hl).symm

/-- C2, refuted on the code: the store has no entry for target A. Two ticks queue two probes
of A before the loop handles a result. The first probe answers 200 and its worker stores the
first completion of A, up; the second answers 500 and its worker stores the second, down,
before the loop takes the first from `resChan`. The loop then handles the first completion
against a snapshot that holds the second, and calls `sendEmail` with the first. -/
theorem C2_overtaken_first_completion_sends_alert :
    demoState.app.results.Keyed
    ∧ demoState.app.results.Load upA.Domain = none
    ∧ (run demoState [Event.tick, Event.tick]).2
        = [Effect.job siteA, Effect.job siteB, Effect.job siteA, Effect.job siteB]
    ∧ worker demoApp siteA { newRequest := true, response := some 200, doErr := none }
        upA.LastCheck = .ok (workerStore demoApp upA, upA)
    ∧ worker (workerStore demoApp upA) siteA
        { newRequest := true, response := some 500, doErr := none } downA.LastCheck
        = .ok (workerStore (workerStore demoApp upA) downA, downA)
    ∧ getResults (workerStore (workerStore demoApp upA) downA) = [downA]
    ∧ alerts (step { demoState with app := workerStore (workerStore demoApp upA) downA }
        (Event.result upA false)).2 = [upA]
    ∧ alerts (step { demoState with app := workerStore (workerStore demoApp upA) downA }
        (Event.result upA false)).2 ≠ [] := by
  refine ⟨by decide, by decide, by decide, rfl, rfl, by decide, by decide, by decide⟩

/-- C2 as amended: the store, filled by the worker, has no entry for the domain of a result
`r`, so the snapshot has none either. The worker stores `r`; before the loop handles `r` the
workers store any further results, of which those for the same domain have the same `Ok` as
`r`. Then, whatever else the state of the loop is by then (inventory, subscriber, ticker),
handling `r` calls `sendEmail` zero times, for either value of `Ok` and whether or not the
websocket write fails, and the loop keeps running. -/
theorem C2_first_completion_not_overtaken_sends_no_alert (st0 st : MainState) (r : Result)
    (others : List Result) (writeErr : Bool)
    (hk : st0.app.results.Keyed)
    (hfirst : st0.app.results.Load r.Domain = none)
    (hst : st.app.results = ((r :: others).foldl workerStore st0.app).results)
    (hsame : ∀ o ∈ others, o.Domain = r.Domain → o.Ok = r.Ok) :
    (∀ x ∈ getResults st0.app, x.Domain ≠ r.Domain)
    ∧ alerts (step st (Event.result r writeErr)).2 = []
    ∧ ∃ st1, (step st (Event.result r writeErr)).1 = Control.running st1 := by
  have hkst : st.app.results.Keyed := by
    rw [hst]
    exact workerStore_history_Keyed st0.app hk (r :: others)
  have hcur : ∀ cur, st.app.results.Load r.Domain = some cur → cur.Ok = r.Ok := by
    intro cur hl
    have hdom : cur.Domain = r.Domain := SyncMap.Keyed_Load _ hkst _ _ hl
    rw [hst] at hl
    rcases workerStore_history_Load (r :: others) st0.app r.Domain cur hl with hmem | hold
    · rcases List.mem_cons.1 hmem with h0 | h0
      · rw [h0]
      · exact hsame cur h0 hdom
    · rw [hfirst] at hold
      cases hold
  refine ⟨?_, ?_, _, rfl⟩
  · intro x hx hd
    rw [getResults_eq_snapshotSpec] at hx
    obtain ⟨w, _, hl⟩ := snapshotSpec_mem _ _ _ hx
    have hw : x.Domain = w.Domain := SyncMap.Keyed_Load _ hk _ _ hl
    rw [← hw, hd, hfirst] at hl
    cases hl
  · simp only [step, handleResult, alerts_append, alerts_pushResult, List.nil_append]
    have hres : (pushResult (tickerChan st).2.app r writeErr).1.results = st.app.results := by
      rw [pushResult_results, tickerChan_app]
    rw [detectChange_nil_of_same_Ok _ (by rw [hres]; exact hkst) r
      (by rw [hres]; exact hcur)]
    rfl

theorem C2_first_completion_not_overtaken_sends_no_alert_witness :
    (demoBusy.app.results.Keyed
      ∧ demoBusy.app.results.Load upA.Domain = none
      ∧ demoBusy.app.results.Load downA.Domain = none
      ∧ (∀ o ∈ [staleC, upAgainA], o.Domain = upA.Domain → o.Ok = upA.Ok)
      ∧ (∀ o ∈ [upB], o.Domain = downA.Domain → o.Ok = downA.Ok))
    ∧ ((∀ x ∈ getResults demoBusy.app, x.Domain ≠ upA.Domain)
      ∧ alerts (step
          { demoBusy with app := [upA, staleC, upAgainA].foldl workerStore demoBusy.app }
          (Event.result upA true)).2 = []
      ∧ ∃ st1, (step
          { demoBusy with app := [upA, staleC, upAgainA].foldl workerStore demoBusy.app }
          (Event.result upA true)).1 = Control.running st1)
    ∧ ((∀ x ∈ getResults demoBusy.app, x.Domain ≠ downA.Domain)
      ∧ alerts (step
          { demoBusy with app := [downA, upB].foldl workerStore demoBusy.app }
          (Event.result downA false)).2 = []
      ∧ ∃ st1, (step
          { demoBusy with app := [downA, upB].foldl workerStore demoBusy.app }
          (Event.result downA false)).1 = Control.running st1) :=
  ⟨⟨by decide, by decide, by decide, by decide, by decide⟩,
    C2_first_completion_not_overtaken_sends_no_alert demoBusy
      { demoBusy with app := [upA, staleC, upAgainA].foldl workerStore demoBusy.app }
      upA [staleC, upAgainA] true (by decide) (by decide) rfl (by decide),
    C2_first_completion_not_overtaken_sends_no_alert demoBusy
      { demoBusy with app := [downA, upB].foldl workerStore demoBusy.app }
      downA [upB] false (by decide) (by decide) rfl (by decide)⟩

/-! ## The prober (claims C5 and C6) -/

/-- C5: when a response with status `s` is obtained, `process` returns a result with the
domain of the website and `Ok` true exactly when `s` is the expected status, which is the
status of the website when that is not zero and `app.status` otherwise. With the default 200,
target A without override answering 200 and target B with override 503 answering 503 are
both `Ok`. -/
theorem C5_process_compares_status (app : App) (w : Website) (s : Int)
    (doErr : Option GoError) (now : String) :
    process app w { newRequest := true, response := some s, doErr := doErr } now
      = .ok { Domain := w.Domain,
              Ok := decide (s = if w.Status ≠ 0 then w.Status else app.status),
              LastCheck := now }
    ∧ process demoApp siteA { newRequest := true, response := some 200, doErr := none } now
      = .ok { Domain := "a.example", Ok := true, LastCheck := now }
    ∧ process demoApp siteB { newRequest := true, response := some 503, doErr := none } now
      = .ok { Domain := "b.example", Ok := true, LastCheck := now } := by
  refine ⟨?_, ?_, ?_⟩
  · simp only [process]
    by_cases h : s = if w.Status ≠ 0 then w.Status else app.status
    · simp [h]
    · simp [h]
  · simp [process, demoApp, siteA]
  · simp [process, demoApp, siteB]

/-- C6, evaluated on the code: when `client.Do` fails at the transport level it returns no
response, and `process` then reads `res.StatusCode` through the `nil` response: it panics
and returns no result, for every website. -/
theorem C6_transport_failure_panics (app : App) (w : Website) (err : GoError) (now : String) :
    process app w { newRequest := true, response := none, doErr := some err } now
      = .error Panic.nilDereference
    ∧ worker app w { newRequest := true, response := none, doErr := some err } now
      = .error Panic.nilDereference := by
  constructor <;> simp [worker, process]

/-! ## The subscriber handle (claim C7) -/

theorem handleResult_ws_none (app : App) (result : Result) (writeErr : Bool)
    (h : app.ws = none) :
    (handleResult app result writeErr).1.ws = none
    ∧ pushes (handleResult app result writeErr).2 = [] := by
  simp only [handleResult, pushResult_none app result writeErr h, List.nil_append]
  exact ⟨h, pushes_detectChange _ _⟩

theorem complete_ws_none (st : MainState) (result : Result) (writeErr : Bool)
    (h : st.app.ws = none) :
    ∃ st1 effs, complete st result writeErr = (Control.running st1, effs)
      ∧ st1.app.ws = none ∧ pushes effs = [] := by
  have h1 : (tickerChan { st with app := workerStore st.app result }).2.app.ws = none := by
    rw [tickerChan_app]
    exact h
  exact ⟨_, _, rfl, (handleResult_ws_none _ result writeErr h1).1,
    (handleResult_ws_none _ result writeErr h1).2⟩

theorem step_result_ws_none (st : MainState) (result : Result) (writeErr : Bool)
    (h : st.app.ws = none) :
    ∃ st1 effs, step st (Event.result result writeErr) = (Control.running st1, effs)
      ∧ st1.app.ws = none ∧ pushes effs = [] := by
  have h1 : (tickerChan st).2.app.ws = none := by
    rw [tickerChan_app]
    exact h
  exact ⟨_, _, rfl, (handleResult_ws_none _ result writeErr h1).1,
    (handleResult_ws_none _ result writeErr h1).2⟩

theorem completeAll_ws_none (cs : List (Result × Bool)) (st : MainState)
    (h : st.app.ws = none) :
    ∃ st1 effs, completeAll st cs = (Control.running st1, effs)
      ∧ st1.app.ws = none ∧ pushes effs = [] := by
  induction cs generalizing st with
  | nil => exact ⟨st, [], rfl, h, rfl⟩
  | cons c rest ih =>
    obtain ⟨st1, effs1, hc, hws1, hp1⟩ := complete_ws_none st c.1 c.2 h
    obtain ⟨st2, effs2, hc2, hws2, hp2⟩ := ih st1 hws1
    refine ⟨st2, effs1 ++ effs2, ?_, hws2, ?_⟩
    · simp only [completeAll, hc, hc2]
    · rw [pushes_append, hp1, hp2]
      rfl

/-- C7: when a subscriber is attached and the write to it fails while a completion is
handled, the loop makes that one write, closes the connection and clears the handle, and keeps
running; every completion handled after that, as long as nothing attaches a subscriber, makes
no write, leaves the handle empty and keeps the loop running. When no subscriber is attached,
handling a completion makes no write and leaves the handle empty. -/
theorem C7_push_failure_detaches (st : MainState) (r : Result) :
    (∀ ws : Conn, st.app.ws = some ws →
      ∃ st1 effs, step st (Event.result r true) = (Control.running st1, effs)
        ∧ st1.app.ws = none
        ∧ pushes effs = [(ws, r)]
        ∧ Effect.wsClose ws ∈ effs
        ∧ ∀ later : List (Result × Bool),
            ∃ st2 effs2, completeAll st1 later = (Control.running st2, effs2)
              ∧ st2.app.ws = none ∧ pushes effs2 = [])
    ∧ (st.app.ws = none → ∀ writeErr : Bool,
      ∃ st1 effs, step st (Event.result r writeErr) = (Control.running st1, effs)
        ∧ st1.app.ws = none ∧ pushes effs = []) := by
  constructor
  · intro ws hws
    have h1 : (tickerChan st).2.app.ws = some ws := by
      rw [tickerChan_app]
      exact hws
    have hp : pushResult (tickerChan st).2.app r true
        = ({ (tickerChan st).2.app with ws := none },
            [Effect.writeJSON ws r, Effect.wsClose ws]) := by
      simp [pushResult, h1]
    refine ⟨_, _, rfl, ?_, ?_, ?_, ?_⟩
    · simp only [handleResult, hp]
    · simp only [handleResult, hp, pushes_append, pushes_detectChange]
      rfl
    · simp only [handleResult, hp]
      simp
    · intro later
      apply completeAll_ws_none
      simp only [handleResult, hp]
  · intro hws writeErr
    exact step_result_ws_none st r writeErr hws

theorem C7_push_failure_detaches_witness :
    demoAttached.app.ws = some 7
    ∧ (∃ st1 effs, step demoAttached (Event.result upA true) = (Control.running st1, effs)
        ∧ st1.app.ws = none
        ∧ pushes effs = [(7, upA)]
        ∧ Effect.wsClose 7 ∈ effs
        ∧ ∀ later : List (Result × Bool),
            ∃ st2 effs2, completeAll st1 later = (Control.running st2, effs2)
              ∧ st2.app.ws = none ∧ pushes effs2 = [])
    ∧ demoState.app.ws = none
    ∧ (∃ st1 effs, step demoState (Event.result upA true) = (Control.running st1, effs)
        ∧ st1.app.ws = none ∧ pushes effs = []) :=
  ⟨by decide, (C7_push_failure_detaches demoAttached upA).1 7 (by decide), by decide,
    (C7_push_failure_detaches demoState upA).2 (by decide) true⟩

/-! ## Reload (claims C8 and C9) -/

theorem tickerChan_hasTicked (st : MainState) : (tickerChan st).2.hasTicked = true := by
  unfold tickerChan
  split
  · rfl
  · rename_i h
    simpa using h

theorem tickerChan_source (st : MainState) (h : st.hasTicked = true) :
    (tickerChan st).1 = TickSource.tickerC st.ticker := by
  simp [tickerChan, h]

theorem step_ticker (st st1 : MainState) (ev : Event) (effs : List Effect)
    (h : step st ev = (Control.running st1, effs)) :
    st1.ticker = st.ticker ∧ st1.hasTicked = true := by
  have ht := tickerChan_ticker st
  have hh := tickerChan_hasTicked st
  cases ev with
  | tick =>
    simp only [step, Prod.mk.injEq, Control.running.injEq] at h
    rw [← h.1]
    exact ⟨ht, hh⟩
  | result r w =>
    simp only [step, Prod.mk.injEq, Control.running.injEq] at h
    rw [← h.1]
    exact ⟨ht, hh⟩
  | signal sig cfg =>
    cases sig with
    | SIGINT => simp [step] at h
    | SIGTERM => simp [step] at h
    | SIGHUP =>
      simp only [step] at h
      split at h
      · simp at h
      · simp only [Prod.mk.injEq, Control.running.injEq] at h
        rw [← h.1]
        exact ⟨ht, hh⟩

theorem run_ticker (evs : List Event) (st st2 : MainState) (effs : List Effect)
    (h : run st evs = (Control.running st2, effs)) :
    st2.ticker = st.ticker ∧ (st.hasTicked = true → st2.hasTicked = true) := by
  induction evs generalizing st effs with
  | nil =>
    simp only [run, Prod.mk.injEq, Control.running.injEq] at h
    rw [← h.1]
    exact ⟨rfl, id⟩
  | cons ev rest ih =>
    simp only [run] at h
    split at h
    · rename_i st1 effs1 hstep
      simp only [Prod.mk.injEq] at h
      have h1 := step_ticker st st1 ev effs1 hstep
      have h2 := ih st1 (run st1 rest).2 (Prod.ext h.1 rfl)
      exact ⟨h2.1.trans h1.1, fun _ => h2.2 h1.2⟩
    · rename_i c effs1 hne hstep
      simp only [Prod.mk.injEq] at h
      exact absurd h.1 (hne st2)

/-- C8, refuted on the code: the loop of `demoApp` receives `SIGHUP` while the configuration
file cannot be read. The iteration ends in `log.Fatal`; the loop does not keep running. -/
theorem C8_failed_reload_leaves_loop_at_demo :
    step demoState (Event.signal Signal.SIGHUP
        (ymlZero, some "open /etc/chouf/config.yml: no such file or directory"))
      = (Control.fatal "open /etc/chouf/config.yml: no such file or directory", [])
    ∧ ¬ ∃ st1, (step demoState (Event.signal Signal.SIGHUP
        (ymlZero, some "open /etc/chouf/config.yml: no such file or directory"))).1
          = Control.running st1 := by
  constructor
  · decide
  · rintro ⟨st1, h⟩
    simp [step, App.init] at h

/-- C8 as amended: for every running state, when `SIGHUP` arrives and `readConfigFile`
returns an error, `App.init` ends in `log.Fatal` with that error: the process exits, and the
loop handles none of the events that would have followed. -/
theorem C8_failed_reload_is_fatal (st : MainState) (yml : Yaml) (err : GoError) :
    step st (Event.signal Signal.SIGHUP (yml, some err)) = (Control.fatal err, [])
    ∧ ∀ evs : List Event,
        run st (Event.signal Signal.SIGHUP (yml, some err) :: evs) = (Control.fatal err, []) := by
  have h : step st (Event.signal Signal.SIGHUP (yml, some err)) = (Control.fatal err, []) := by
    simp [step, App.init]
  refine ⟨h, ?_⟩
  intro evs
  simp only [run, h]

/-- C9, refuted on the code: the loop of `demoApp` runs with the ticker created for five
minutes, and a reload succeeds with a tick of one minute. Afterwards `app.tick` is one minute,
and the channel the loop waits on is still that of the ticker of five minutes. -/
theorem C9_reload_keeps_ticker_at_demo :
    startLoop demoApp noFlags = .ok { demoState with hasTicked := false }
    ∧ demoState.app.tick = 5 * Minute
    ∧ ymlOneMinute.GeneralConfig.Tick = Minute
    ∧ ∃ st1, step demoState (Event.signal Signal.SIGHUP (ymlOneMinute, none))
          = (Control.running st1, [])
        ∧ st1.app.tick = Minute
        ∧ (tickerChan st1).1 = TickSource.tickerC { period := 5 * Minute }
        ∧ st1.ticker.period ≠ st1.app.tick := by
  refine ⟨rfl, by decide, by decide, ?_⟩
  refine ⟨{ demoState with app := { demoApp with tick := Minute } }, ?_, ?_, ?_, ?_⟩
  · decide
  · decide
  · decide
  · decide

/-- C9 as amended: a successful reload stores the configured tick in `app.tick` when it is
not zero, unless the flag `-T` is on the command line, whose value then stays in force; the
ticker that drives the loop is the one created at startup, and it stays the same, period
included, through the reload and through every iteration that follows it. -/
theorem C9_reload_sets_tick_keeps_ticker (st : MainState) (yml : Yaml) :
    (∃ st1, step st (Event.signal Signal.SIGHUP (yml, none)) = (Control.running st1, [])
      ∧ st1.app.tick = st.cl.T.getD
          (if yml.GeneralConfig.Tick ≠ 0 then yml.GeneralConfig.Tick else st.app.tick)
      ∧ st1.ticker = st.ticker)
    ∧ ∀ (evs : List Event) (st2 : MainState) (effs : List Effect),
        run st (Event.signal Signal.SIGHUP (yml, none) :: evs) = (Control.running st2, effs) →
        st2.ticker = st.ticker ∧ (tickerChan st2).1 = TickSource.tickerC st.ticker := by
  constructor
  · refine ⟨_, rfl, ?_, tickerChan_ticker st⟩
    simp only [flagParse, tickerChan_app, tickerChan_cl]
    by_cases h : yml.GeneralConfig.Tick = 0
    · simp only [h, ne_eq, not_true_eq_false, if_false]
      repeat' split
      all_goals rfl
    · simp only [h, ne_eq, not_false_eq_true, if_true]
      repeat' split
      all_goals rfl
  · intro evs st2 effs h
    simp only [run] at h
    split at h
    · rename_i st1 effs1 hstep
      simp only [Prod.mk.injEq] at h
      have h1 := step_ticker st st1 _ effs1 hstep
      have h2 := run_ticker evs st1 st2 (run st1 evs).2 (Prod.ext h.1 rfl)
      have h3 : st2.ticker = st.ticker := h2.1.trans h1.1
      refine ⟨h3, ?_⟩
      rw [tickerChan_source st2 (h2.2 h1.2), h3]
    · rename_i c effs1 hne hstep
      simp only [Prod.mk.injEq] at h
      exact absurd h.1 (hne st2)

theorem C9_reload_sets_tick_keeps_ticker_witness :
    run demoState [Event.signal Signal.SIGHUP (ymlOneMinute, none), Event.tick]
      = (Control.running { demoState with app := { demoApp with tick := Minute } },
          [Effect.job siteA, Effect.job siteB])
    ∧ ({ demoState with app := { demoApp with tick := Minute } } : MainState).ticker
        = demoState.ticker
    ∧ (tickerChan { demoState with app := { demoApp with tick := Minute } }).1
        = TickSource.tickerC demoState.ticker :=
  ⟨by decide,
    (C9_reload_sets_tick_keeps_ticker demoState ymlOneMinute).2 [Event.tick]
      { demoState with app := { demoApp with tick := Minute } }
      [Effect.job siteA, Effect.job siteB] (by decide)⟩

/-! ## Environment helpers (claim C10) -/

/-- C10: `GetDurationEnv` returns the parsed value when the variable is set to a string that
`time.ParseDuration` accepts, and the fallback when it is set to a string that is rejected.
When the variable is unset it parses the hard-coded `5m`, which `time.ParseDuration` reads as
five minutes, and returns that whatever the fallback is. So the fallback is returned only for a
variable that is set and rejected: in the other two cases the result is the same for every
fallback. -/
theorem C10_GetDurationEnv_fallback (env : Env)
    (ParseDuration : String → Except GoError Duration) (key : String) (fallback : Duration) :
    (∀ (v : String) (d : Duration), env key = some v → ParseDuration v = .ok d →
      GetDurationEnv env ParseDuration key fallback = d
      ∧ ∀ other : Duration, GetDurationEnv env ParseDuration key other = d)
    ∧ (∀ (v : String) (e : GoError), env key = some v → ParseDuration v = .error e →
      GetDurationEnv env ParseDuration key fallback = fallback)
    ∧ (env key = none → ParseDuration "5m" = .ok (5 * Minute) →
      GetDurationEnv env ParseDuration key fallback = 5 * Minute
      ∧ ∀ other : Duration, GetDurationEnv env ParseDuration key other = 5 * Minute) := by
  refine ⟨?_, ?_, ?_⟩
  · intro v d hv hp
    simp [GetDurationEnv, GetStrEnv, hv, hp]
  · intro v e hv hp
    simp [GetDurationEnv, GetStrEnv, hv, hp]
  · intro hv hp
    simp [GetDurationEnv, GetStrEnv, hv, hp]

theorem C10_GetDurationEnv_fallback_witness :
    (demoEnv "CHOUF_INTERVAL" = some "90s" ∧ demoParseDuration "90s" = .ok 90000000000
      ∧ demoEnv "CHOUF_WORKERS" = none ∧ demoParseDuration "5m" = .ok (5 * Minute)
      ∧ (fun _ => some "soon" : Env) "CHOUF_INTERVAL" = some "soon"
      ∧ demoParseDuration "soon" = .error "time: invalid duration soon")
    ∧ (GetDurationEnv demoEnv demoParseDuration "CHOUF_INTERVAL" (7 * Minute) = 90000000000
      ∧ ∀ other : Duration,
          GetDurationEnv demoEnv demoParseDuration "CHOUF_INTERVAL" other = 90000000000)
    ∧ GetDurationEnv (fun _ => some "soon") demoParseDuration "CHOUF_INTERVAL" (7 * Minute)
        = 7 * Minute
    ∧ (GetDurationEnv demoEnv demoParseDuration "CHOUF_WORKERS" (7 * Minute) = 5 * Minute
      ∧ ∀ other : Duration,
          GetDurationEnv demoEnv demoParseDuration "CHOUF_WORKERS" other = 5 * Minute) :=
  ⟨⟨rfl, rfl, rfl, rfl, rfl, rfl⟩,
    (C10_GetDurationEnv_fallback demoEnv demoParseDuration "CHOUF_INTERVAL" (7 * Minute)).1
      "90s" 90000000000 rfl rfl,
    (C10_GetDurationEnv_fallback (fun _ => some "soon") demoParseDuration "CHOUF_INTERVAL"
      (7 * Minute)).2.1 "soon" "time: invalid duration soon" rfl rfl,
    (C10_GetDurationEnv_fallback demoEnv demoParseDuration "CHOUF_WORKERS" (7 * Minute)).2.2
      rfl rfl⟩

end Chouf
